import Mathlib

/-!
Verification of `add_anki_card.py` (fluency-by-anki-script).

The script is embedded shallowly: JSON values decoded from the translation
tool's output are modelled by the inductive type `JVal` (numeric literals are
modelled as integers; the claims under study never touch numeric values), the
parser `parse_trans_data` is translated statement by statement, Python
exceptions that the source catches are modelled with `Except` (the error
payload is the mutable state at the moment the exception is raised, since the
source mutates `result` in place and the `except` clause returns the partially
mutated dictionary), and the interactive pieces of `main` are modelled as pure
functions of the externally supplied responses (user input lines, service
replies, subprocess outcomes).
-/

namespace AnkiCard

/-- JSON values as decoded by `json.loads` in the script.  Objects do not
occur in the translation tool's payloads handled by the parser, and numeric
literals are modelled as integers. -/
inductive JVal where
  | null
  | bool (b : Bool)
  | num (n : Int)
  | str (s : String)
  | arr (xs : List JVal)

/-- Python truthiness (`if not data`, `if response['error']`) for the modelled
JSON values. -/
def pyTruthy : JVal → Bool
  | JVal.null => false
  | JVal.bool b => b
  | JVal.num n => n != 0
  | JVal.str s => s != ""
  | JVal.arr xs => !xs.isEmpty

/-- Python `repr` of a modelled JSON value (string escaping inside `repr` of a
string is not modelled; no claim depends on it). -/
def pyRepr : JVal → String
  | JVal.null => "None"
  | JVal.bool true => "True"
  | JVal.bool false => "False"
  | JVal.num n => toString n
  | JVal.str s => "\x27" ++ s ++ "\x27"
  | JVal.arr xs => "[" ++ String.intercalate ", " (xs.attach.map (fun p => pyRepr p.1)) ++ "]"
decreasing_by
  have := List.sizeOf_lt_of_mem p.2
  simp only [JVal.arr.sizeOf_spec]
  omega

/-- Python `str` (as used by f-string interpolation `f"/{x}/"`). -/
def pyStr : JVal → String
  | JVal.str s => s
  | v => pyRepr v

/-- The dictionary built at the top of `parse_trans_data` (line 76). -/
structure TransResult where
  word : String
  translation : String
  ipa : String
  pos : String
  definitions : List String
  examples : List String

/-- The mutable state of `parse_trans_data` while the `try` block runs: the
`ipa` field of `result`, the `all_pos` set (modelled with insertion order; no
claim depends on the iteration order of the Python set), and the
`definitions` / `examples` lists of `result`. -/
structure PState where
  ipa : String
  allPos : List String
  defs : List String
  exs : List String

/-- Python `', '.join(xs)` raises `TypeError` unless every element is a
string; `strList?` returns the strings when the join succeeds. -/
def strList? : List JVal → Option (List String)
  | [] => some []
  | JVal.str s :: t =>
    match strList? t with
    | some l => some (s :: l)
    | none => none
  | _ :: _ => none

/-- Model of `all_pos.add(pos)` (lines 110 and 120) with insertion order. -/
def addPos (ps : List String) (p : String) : List String :=
  if p ∈ ps then ps else ps ++ [p]

/-- Step 1 of the parser (lines 81-83): the value assigned to `result["ipa"]`
when the guards pass, `""` otherwise. -/
def ipaOf (xs : List JVal) : String :=
  match xs with
  | JVal.arr (_ :: JVal.arr l1 :: _) :: _ =>
    if 3 < l1.length then "/" ++ pyStr (l1.getD 3 JVal.null) ++ "/" else ""
  | _ => ""

/-- Lines 98-101: collect `entry[0][:3]` for every entry of the block whose
first element is a list (a synonym group). -/
def collectSyns : List JVal → List JVal
  | [] => []
  | JVal.arr (JVal.arr l :: _) :: es => l.take 3 ++ collectSyns es
  | _ :: es => collectSyns es

/-- Line 102: the synonym suffix for a part-of-speech block; `none` models the
`TypeError` raised by `', '.join` when a collected synonym is not a string. -/
def synSuffix (entries : List JVal) : Option String :=
  let syns := collectSyns entries
  if syns.isEmpty then some ""
  else
    match strList? (syns.take 3) with
    | some l => some (" | Synonyms: " ++ String.intercalate ", " l)
    | none => none

/-- Line 112: append `entry[2]` to the examples when the entry has more than
two elements and the third is a string (`erest` is the entry minus its
head). -/
def exUpdate (exs : List String) (erest : List JVal) : List String :=
  match erest with
  | _ :: JVal.str ex :: _ => exs ++ [ex]
  | _ => exs

/-- Lines 104-113: the inner loop over the entries of one part-of-speech
block, appending definitions and examples. -/
def defsLoop (pos suffix : String) : PState → List JVal → PState
  | st, [] => st
  | st, e :: es =>
    match e with
    | JVal.arr (JVal.str val :: erest) =>
      defsLoop pos suffix
        { st with allPos := addPos st.allPos pos,
                  defs := st.defs ++ ["(" ++ pos ++ ") " ++ val ++ suffix],
                  exs := exUpdate st.exs erest } es
    | _ => defsLoop pos suffix st es

/-- Lines 92-113: process one `pos_block` of an explanation-style item.  The
error case carries the state at the moment the `TypeError` from `join` is
raised. -/
def processPosBlock (st : PState) (pb : JVal) : Except PState PState :=
  match pb with
  | JVal.arr (JVal.str pos :: entriesV :: _) =>
    match entriesV with
    | JVal.arr entries =>
      match synSuffix entries with
      | none => Except.error st
      | some suffix => Except.ok (defsLoop pos suffix st entries)
    | _ => Except.ok st
  | _ => Except.ok st

/-- Fold a fallible step over a list, stopping at the first exception. -/
def foldlE (f : PState → JVal → Except PState PState) :
    PState → List JVal → Except PState PState
  | st, [] => Except.ok st
  | st, x :: xs =>
    match f st x with
    | Except.error e => Except.error e
    | Except.ok st2 => foldlE f st2 xs

/-- Lines 89-113: one top-level item of the primary (explanation-style)
pass.  The guards of line 90 require the item to be a list whose first
element is a non-empty list. -/
def processItem1 (st : PState) (item : JVal) : Except PState PState :=
  match item with
  | JVal.arr (JVal.arr (b0 :: bs) :: blocksTl) =>
    foldlE processPosBlock st (JVal.arr (b0 :: bs) :: blocksTl)
  | _ => Except.ok st

/-- Lines 117-123: one top-level item of the fallback (synonym-style) pass. -/
def processItem2 (st : PState) (item : JVal) : Except PState PState :=
  match item with
  | JVal.arr (JVal.str pos :: synsV :: _) =>
    let st2 : PState := { st with allPos := addPos st.allPos pos }
    match synsV with
    | JVal.arr syns =>
      match strList? (syns.take 5) with
      | none => Except.error st2
      | some l =>
        Except.ok { st2 with defs := st2.defs ++ ["(" ++ pos ++ ") " ++ String.intercalate ", " l] }
    | _ => Except.ok st2
  | _ => Except.ok st

/-- Lines 89-123: the primary pass followed, only when it produced no
definitions, by the fallback pass. -/
def passes (xs : List JVal) (st0 : PState) : Except PState PState :=
  match foldlE processItem1 st0 xs with
  | Except.error st => Except.error st
  | Except.ok st =>
    if st.defs = [] then foldlE processItem2 st xs else Except.ok st

/-- Lines 125-132: build the returned dictionary.  On `Except.error` the
exception was caught (line 129) after `result` had been partially mutated:
`pos` and `translation` keep their defaults while `ipa`, `definitions` and
`examples` keep the mutations already applied. -/
def finishResult (word : String) (out : Except PState PState) : TransResult :=
  match out with
  | Except.error st =>
    { word := word, translation := "", ipa := st.ipa, pos := "",
      definitions := st.defs, examples := st.exs }
  | Except.ok st =>
    { word := word,
      translation := if st.defs = [] then "" else String.intercalate "<br>" st.defs,
      ipa := st.ipa, pos := String.intercalate ", " st.allPos,
      definitions := st.defs, examples := st.exs }

/-- The default result built on line 76. -/
def defaultResult (word : String) : TransResult :=
  { word := word, translation := "", ipa := "", pos := "", definitions := [], examples := [] }

/-- The `try` body (lines 79-127) for a truthy payload.  A string payload is
iterated character by character (each character is a one-character string and
matches no guard); a number or boolean raises `TypeError` at `len(data)`
before any mutation, so the defaults are returned. -/
def parseTruthy (v : JVal) (word : String) : TransResult :=
  match v with
  | JVal.arr xs =>
    finishResult word (passes xs { ipa := ipaOf xs, allPos := [], defs := [], exs := [] })
  | JVal.str s =>
    finishResult word
      (passes (s.data.map (fun c => JVal.str c.toString))
        { ipa := "", allPos := [], defs := [], exs := [] })
  | _ => defaultResult word

/-- The parser `parse_trans_data` (lines 75-132).  Here `none` models the
absent payload (`run_trans_dump` returned `None`). -/
def parse_trans_data (data : Option JVal) (word : String) : TransResult :=
  match data with
  | none => defaultResult word
  | some v => if pyTruthy v then parseTruthy v word else defaultResult word

/-- Python `str.lower()` (ASCII case folding, which is all the interactive
answers compared against `'y'`, `'n'`, `'q'` need). -/
def pyLower (s : String) : String := String.mk (s.data.map Char.toLower)

/-- Whitespace stripped by Python `str.strip()` (the ASCII whitespace
relevant to terminal input). -/
def pySpace (c : Char) : Bool :=
  c = ' ' || c = '\t' || c = '\n' || c = '\r' || c = '\x0b' || c = '\x0c'

/-- Python `str.strip()`. -/
def pyStrip (s : String) : String :=
  String.mk (((s.data.dropWhile pySpace).reverse.dropWhile pySpace).reverse)

/-- The ASCII fragment of the numeric-choice semantics of line 52
(`choice.isdigit() and ... int(choice)`): defined exactly on non-empty ASCII
digit strings, returning the decimal value.  On its `some` branch it
coincides with `isdigit`/`int` (lemma `pyToNat?_sound`); the full
classification, covering the non-ASCII digit characters as well, is
`pyIsDigit` / `pyIntVal?` below. -/
def pyToNat? (s : String) : Option Nat :=
  if s.data ≠ [] ∧ s.data.all Char.isDigit then
    some (s.data.foldl (fun n c => n * 10 + (c.toNat - 48)) 0)
  else none

/-- Start code points of the Unicode 14.0 decimal-digit runs (general
category `Nd`), the characters `int()` accepts; every run is ten consecutive
code points with decimal values 0 to 9.  Taken from the Unicode character
database consulted by CPython (3.11) for `str.isdigit` and `int`. -/
def decimalRunStarts : List Nat :=
  [48, 1632, 1776, 1984, 2406, 2534, 2662, 2790, 2918, 3046, 3174, 3302,
   3430, 3558, 3664, 3792, 3872, 4160, 4240, 6112, 6160, 6470, 6608, 6784,
   6800, 6992, 7088, 7232, 7248, 42528, 43216, 43264, 43472, 43504, 43600,
   44016, 65296, 66720, 68912, 69734, 69872, 69942, 70096, 70384, 70736,
   70864, 71248, 71360, 71472, 71904, 72016, 72784, 73040, 73120, 92768,
   92864, 93008, 120782, 120792, 120802, 120812, 120822, 123200, 123632,
   125264, 130032]

/-- Decimal value of a character as `int()` accepts it (Unicode category
`Nd`): the offset inside its decimal run. -/
def pyDecVal? (c : Char) : Option Nat :=
  decimalRunStarts.findSome?
    (fun s => if s ≤ c.toNat ∧ c.toNat ≤ s + 9 then some (c.toNat - s) else none)

/-- Code points with `Numeric_Type=Digit` that are not decimal digits
(Unicode 14.0): `str.isdigit()` accepts them but `int()` raises
`ValueError` (for example 178, superscript two). -/
def digitOnlyCodes : List Nat :=
  [178, 179, 185, 4969, 4970, 4971, 4972, 4973, 4974, 4975, 4976, 4977,
   6618, 8304, 8308, 8309, 8310, 8311, 8312, 8313, 8320, 8321, 8322, 8323,
   8324, 8325, 8326, 8327, 8328, 8329, 9312, 9313, 9314, 9315, 9316, 9317,
   9318, 9319, 9320, 9332, 9333, 9334, 9335, 9336, 9337, 9338, 9339, 9340,
   9352, 9353, 9354, 9355, 9356, 9357, 9358, 9359, 9360, 9450, 9461, 9462,
   9463, 9464, 9465, 9466, 9467, 9468, 9469, 9471, 10102, 10103, 10104,
   10105, 10106, 10107, 10108, 10109, 10110, 10112, 10113, 10114, 10115,
   10116, 10117, 10118, 10119, 10120, 10122, 10123, 10124, 10125, 10126,
   10127, 10128, 10129, 10130, 68160, 68161, 68162, 68163, 69216, 69217,
   69218, 69219, 69220, 69221, 69222, 69223, 69224, 69714, 69715, 69716,
   69717, 69718, 69719, 69720, 69721, 69722, 127232, 127233, 127234,
   127235, 127236, 127237, 127238, 127239, 127240, 127241, 127242]

/-- Python `str.isdigit()` on a single character: decimal digit or
digit-only numeric character. -/
def pyIsDigitChar (c : Char) : Bool :=
  (pyDecVal? c).isSome || digitOnlyCodes.contains c.toNat

/-- Python `choice.isdigit()`: non-empty and every character digit-class. -/
def pyIsDigit (s : String) : Bool :=
  !s.data.isEmpty && s.data.all pyIsDigitChar

/-- Decimal values of a character list when every character is a decimal
digit (`none` as soon as one is not, modelling the `ValueError` of
`int()`). -/
def decDigits? : List Char → Option (List Nat)
  | [] => some []
  | c :: cs =>
    match pyDecVal? c, decDigits? cs with
    | some v, some vs => some (v :: vs)
    | _, _ => none

/-- Python `int(choice)` on an `isdigit()`-true string: succeeds exactly when
every character is a decimal digit (category `Nd`), returning the base-10
value of the digit sequence; `none` models the `ValueError` raised on
digit-only characters such as superscript two. -/
def pyIntVal? (s : String) : Option Nat :=
  (decDigits? s.data).map (List.foldl (fun n v => n * 10 + v) 0)

/-- Python `response['k']` on the decoded response, modelled as an
association list (a Python `dict` has no duplicate keys; `none` models the
`KeyError`). -/
def lookupJ (k : String) : List (String × JVal) → Option JVal
  | [] => none
  | (k2, v) :: t => if k2 = k then some v else lookupJ k t

/-- The function `invoke` (lines 20-29), applied to an already decoded response dictionary.
The first component is the Python return value (`JVal.null` both for an
explicit `return None` and for the `None` returned after a caught exception,
exactly as in the source where the two are indistinguishable to callers); the
second component records whether the `AnkiConnect Error` message was printed.
A `KeyError` on `response['error']` or `response['result']` is caught by the
`except` clause and yields `None`. -/
def invoke (response : List (String × JVal)) : JVal × Bool :=
  if response.length ≠ 2 then (JVal.null, false)
  else
    match lookupJ "error" response with
    | none => (JVal.null, false)
    | some err =>
      let logged := pyTruthy err
      match lookupJ "result" response with
      | none => (JVal.null, logged)
      | some r => (r, logged)

/-- Model of `word.replace('"', '\\"')` (line 36), character by character
(the pattern is a single character, so per-character replacement is exactly
Python's replace-all). -/
def escapeQuote : List Char → List Char
  | [] => []
  | c :: cs => (if c = '"' then ['\\', '"'] else [c]) ++ escapeQuote cs

/-- The `safe_word` local of `card_exists` (line 36). -/
def safe_word (w : String) : String := String.mk (escapeQuote w.data)

/-- The query string built by `card_exists` (line 37). -/
def card_exists_query (deck word : String) : String :=
  "deck:\"" ++ deck ++ "\" \"Word:" ++ safe_word word ++ "\""

/-- Python's `<` on strings: lexicographic comparison of the code-point
sequences (a proper prefix is smaller). -/
def lexLt : List Char → List Char → Bool
  | [], [] => false
  | [], _ :: _ => true
  | _ :: _, [] => false
  | a :: as, b :: bs => if a = b then lexLt as bs else decide (a < b)

/-- Python comparison `a < b` on strings. -/
def pyLt (a b : String) : Bool := lexLt a.data b.data

/-- Model of `decks.sort(reverse=True)` (line 46): descending lexicographic order.
Python's sort is stable, and equal strings are identical, so the descending
sorted permutation it produces is unique as a list; insertion sort with
the embedded `≥` (`not (a < b)` reversed) computes it. -/
def sortDesc (ds : List String) : List String :=
  List.insertionSort (fun a b => pyLt a b = false) ds

/-- How a run of the `select_deck` prompt loop ends: a deck is returned, the
`ValueError` of `int(choice)` escapes (it is raised outside any `try`, so the
program crashes), or the scripted inputs ran out while the loop was still
reprompting. -/
inductive SelectOutcome where
  | chosen (deck : String)
  | raised
  | pending
deriving DecidableEq

/-- The `while True` prompt loop of `select_deck` (lines 49-53), fed the
successive user input lines.  Line 52 short-circuits: when
`choice.isdigit()` is false the prompt repeats without calling `int`; when it
is true, `int(choice)` is evaluated and raises `ValueError` on digit-class
characters that are not decimal digits (outcome `raised`), otherwise the
bound check selects or repeats. -/
def selectLoopFull (sorted : List String) : List String → SelectOutcome
  | [] => SelectOutcome.pending
  | c :: rest =>
    if pyStrip c = "" then SelectOutcome.chosen "Default"
    else if pyIsDigit (pyStrip c) then
      match pyIntVal? (pyStrip c) with
      | none => SelectOutcome.raised
      | some k =>
        if 0 < k ∧ k ≤ sorted.length then SelectOutcome.chosen (sorted.getD (k - 1) "Default")
        else selectLoopFull sorted rest
    else selectLoopFull sorted rest

/-- The function `select_deck` (lines 43-53) with its full outcome.  Here
`decks` is the service's deck listing (`none` models a `None` result of
`get_deck_names`); `inputs` are the user's input lines.  The listing
presented by line 48 is `sortDesc ds`, and the numeric choice indexes into
it. -/
def select_deckFull (decks : Option (List String)) (inputs : List String) : SelectOutcome :=
  match decks with
  | none => SelectOutcome.chosen "Default"
  | some ds =>
    if ds = [] then SelectOutcome.chosen "Default"
    else selectLoopFull (sortDesc ds) inputs

/-- The deck returned by `select_deck`, when one is returned: the
`Option String` view of `select_deckFull` (`none` when the run produced no
deck, because the inputs ran out or the `ValueError` aborted it).  Statements
that only concern returned decks are phrased with this view. -/
def select_deck (decks : Option (List String)) (inputs : List String) : Option String :=
  match select_deckFull decks inputs with
  | SelectOutcome.chosen d => some d
  | _ => none

/-- Line 180: `"<br>".join([f"• {e}" for e in data['examples'][:4]])`. -/
def renderExamples (examples : List String) : String :=
  String.intercalate "<br>" ((examples.take 4).map (fun e => "• " ++ e))

/-- The external/user responses consumed by one iteration of the `main` loop
(lines 145-269), as far as the audio temp file is concerned.  `word` models
the already `strip()`ed word; `audioCreated` models `download_audio` having
produced a non-empty file (which then still exists at line 266);
`noteAdded` models a truthy `invoke('addNote', ...)` result. -/
structure IterInputs where
  word : String
  cardExists : Bool
  addAnywayAnswer : String
  audioCreated : Bool
  addCardAnswer : String
  noteAdded : Bool

/-- How one iteration of the `main` loop ends. -/
inductive IterOutcome where
  | brk
  | skipDuplicate
  | declined
  | submitted (ok : Bool)
deriving DecidableEq

/-- The observable effects of one iteration that the cleanup claim is about. -/
structure IterEffects where
  outcome : IterOutcome
  audioFileCreated : Bool
  audioFileRemoved : Bool

/-- The control flow of one `main` loop iteration (lines 148-266) restricted
to the decisions that determine the fate of the temporary audio file:
line 149 (`break`), lines 151-154 (duplicate check, `continue` before any
download), line 158 (`download_audio`), line 188 (`continue` when the user
answers `n` to `Add card?`), line 264 (`addNote`), and line 266 (remove the
audio file when it was created and still exists). -/
def mainIteration (inp : IterInputs) : IterEffects :=
  if inp.word = "" ∨ pyLower inp.word = "q" then
    { outcome := IterOutcome.brk, audioFileCreated := false, audioFileRemoved := false }
  else if inp.cardExists ∧ pyLower (pyStrip inp.addAnywayAnswer) ≠ "y" then
    { outcome := IterOutcome.skipDuplicate, audioFileCreated := false, audioFileRemoved := false }
  else if pyStrip (pyLower inp.addCardAnswer) = "n" then
    { outcome := IterOutcome.declined, audioFileCreated := inp.audioCreated,
      audioFileRemoved := false }
  else
    { outcome := IterOutcome.submitted inp.noteAdded, audioFileCreated := inp.audioCreated,
      audioFileRemoved := inp.audioCreated }

/-! ### Helper lemmas -/

/-- The parser state carried by an `Except` outcome (the caught exception
returns the partially mutated state, so both constructors carry a state). -/
def stateOf : Except PState PState → PState
  | Except.ok st => st
  | Except.error st => st

lemma finishResult_word (w : String) (out : Except PState PState) :
    (finishResult w out).word = w := by
  cases out <;> rfl

lemma finishResult_ipa (w : String) (out : Except PState PState) :
    (finishResult w out).ipa = (stateOf out).ipa := by
  cases out <;> rfl

lemma finishResult_defs (w : String) (out : Except PState PState) :
    (finishResult w out).definitions = (stateOf out).defs := by
  cases out <;> rfl

lemma defsLoop_ipa (pos suffix : String) :
    ∀ (es : List JVal) (st : PState), (defsLoop pos suffix st es).ipa = st.ipa := by
  intro es
  induction es with
  | nil => intro st; rfl
  | cons e es ih =>
    intro st
    unfold defsLoop
    split
    · exact ih _
    · exact ih st

lemma processPosBlock_ipa (st : PState) (pb : JVal) :
    (stateOf (processPosBlock st pb)).ipa = st.ipa := by
  unfold processPosBlock
  split
  · split
    · split
      · rfl
      · exact defsLoop_ipa _ _ _ _
    · rfl
  · rfl

lemma foldlE_ipa (f : PState → JVal → Except PState PState)
    (hf : ∀ st x, (stateOf (f st x)).ipa = st.ipa) :
    ∀ (xs : List JVal) (st : PState), (stateOf (foldlE f st xs)).ipa = st.ipa := by
  intro xs
  induction xs with
  | nil => intro st; rfl
  | cons x xs ih =>
    intro st
    unfold foldlE
    rcases hfx : f st x with e | st2
    · have := hf st x
      rw [hfx] at this
      exact this
    · have h1 := hf st x
      rw [hfx] at h1
      exact (ih st2).trans h1

lemma processItem1_ipa (st : PState) (item : JVal) :
    (stateOf (processItem1 st item)).ipa = st.ipa := by
  unfold processItem1
  split
  · exact foldlE_ipa processPosBlock processPosBlock_ipa _ _
  · rfl

lemma processItem2_ipa (st : PState) (item : JVal) :
    (stateOf (processItem2 st item)).ipa = st.ipa := by
  unfold processItem2
  split
  · split
    · split
      · rfl
      · rfl
    · rfl
  · rfl

lemma passes_ipa (xs : List JVal) (st0 : PState) :
    (stateOf (passes xs st0)).ipa = st0.ipa := by
  unfold passes
  have h1 := foldlE_ipa processItem1 processItem1_ipa xs st0
  rcases hxs : foldlE processItem1 st0 xs with st | st <;> rw [hxs] at h1
  · exact h1
  · show (stateOf (if st.defs = [] then foldlE processItem2 st xs else Except.ok st)).ipa = st0.ipa
    split
    · exact (foldlE_ipa processItem2 processItem2_ipa xs st).trans h1
    · exact h1

lemma strList?_length :
    ∀ (xs : List JVal) (l : List String), strList? xs = some l → l.length = xs.length := by
  intro xs
  induction xs with
  | nil =>
    intro l h
    cases h
    rfl
  | cons x xs ih =>
    intro l h
    cases x with
    | str s =>
      simp only [strList?] at h
      split at h
      · rename_i l2 hl2
        cases h
        simpa using ih l2 hl2
      · exact Option.noConfusion h
    | null => exact Option.noConfusion h
    | bool b => exact Option.noConfusion h
    | num n => exact Option.noConfusion h
    | arr a => exact Option.noConfusion h

lemma synSuffix_shape (entries : List JVal) (suffix : String)
    (h : synSuffix entries = some suffix) :
    suffix = "" ∨ ∃ syns : List String, syns.length ≤ 3 ∧
      strList? ((collectSyns entries).take 3) = some syns ∧
      suffix = " | Synonyms: " ++ String.intercalate ", " syns := by
  simp only [synSuffix] at h
  split at h
  · exact Or.inl (Option.some.inj h).symm
  · split at h
    · rename_i l hl
      refine Or.inr ⟨l, ?_, hl, (Option.some.inj h).symm⟩
      have hlen := strList?_length _ _ hl
      have := List.length_take_le 3 (collectSyns entries)
      omega
    · cases h

/-- Shape of every definition string appended by the explanation-style pass
for one part-of-speech block `pb`: the block is a list headed by its
part-of-speech string and its entry list, the definition text is the string
head of one of the entries, and the synonym suffix (when non-empty) joins at
most three synonyms collected from the sibling synonym-group entries of the
same block. -/
def QBlock (pb : JVal) (d : String) : Prop :=
  ∃ pos entries rest val erest suffix,
    pb = JVal.arr (JVal.str pos :: JVal.arr entries :: rest) ∧
    JVal.arr (JVal.str val :: erest) ∈ entries ∧
    d = "(" ++ pos ++ ") " ++ val ++ suffix ∧
    (suffix = "" ∨ ∃ syns : List String, syns.length ≤ 3 ∧
      strList? ((collectSyns entries).take 3) = some syns ∧
      suffix = " | Synonyms: " ++ String.intercalate ", " syns)

lemma defsLoop_mem (pos suffix : String) :
    ∀ (es : List JVal) (st : PState) (d : String), d ∈ (defsLoop pos suffix st es).defs →
      d ∈ st.defs ∨ ∃ val erest, JVal.arr (JVal.str val :: erest) ∈ es ∧
        d = "(" ++ pos ++ ") " ++ val ++ suffix := by
  intro es
  induction es with
  | nil =>
    intro st d hd
    exact Or.inl hd
  | cons e es ih =>
    intro st d hd
    unfold defsLoop at hd
    split at hd
    · rename_i val erest
      rcases ih _ d hd with h | ⟨v2, e2, hm, hdq⟩
      · rcases List.mem_append.mp h with h1 | h2
        · exact Or.inl h1
        · refine Or.inr ⟨val, erest, List.mem_cons_self _ _, ?_⟩
          simpa using h2
      · exact Or.inr ⟨v2, e2, List.mem_cons_of_mem _ hm, hdq⟩
    · rcases ih st d hd with h | ⟨v2, e2, hm, hdq⟩
      · exact Or.inl h
      · exact Or.inr ⟨v2, e2, List.mem_cons_of_mem _ hm, hdq⟩

lemma processPosBlock_defs (st : PState) (pb : JVal) (d : String)
    (hd : d ∈ (stateOf (processPosBlock st pb)).defs) :
    d ∈ st.defs ∨ QBlock pb d := by
  unfold processPosBlock at hd
  split at hd
  · rename_i pos entriesV restV
    split at hd
    · rename_i entries
      split at hd
      · exact Or.inl hd
      · rename_i suffix hsuf
        rcases defsLoop_mem pos suffix entries st d hd with h | ⟨val, erest, hm, hdq⟩
        · exact Or.inl h
        · exact Or.inr ⟨pos, entries, restV, val, erest, suffix, rfl, hm, hdq,
            synSuffix_shape entries suffix hsuf⟩
    · exact Or.inl hd
  · exact Or.inl hd

lemma foldlE_defs_mem (f : PState → JVal → Except PState PState) (P : JVal → String → Prop)
    (hf : ∀ st x d, d ∈ (stateOf (f st x)).defs → d ∈ st.defs ∨ P x d) :
    ∀ (xs : List JVal) (st : PState) (d : String),
      d ∈ (stateOf (foldlE f st xs)).defs → d ∈ st.defs ∨ ∃ x, x ∈ xs ∧ P x d := by
  intro xs
  induction xs with
  | nil =>
    intro st d hd
    exact Or.inl hd
  | cons x xs ih =>
    intro st d hd
    unfold foldlE at hd
    rcases hfx : f st x with e | st2 <;> rw [hfx] at hd
    · rcases hf st x d (by rw [hfx]; exact hd) with h | hp
      · exact Or.inl h
      · exact Or.inr ⟨x, List.mem_cons_self _ _, hp⟩
    · rcases ih st2 d hd with h | ⟨x2, hm, hp⟩
      · rcases hf st x d (by rw [hfx]; exact h) with h2 | hp2
        · exact Or.inl h2
        · exact Or.inr ⟨x, List.mem_cons_self _ _, hp2⟩
      · exact Or.inr ⟨x2, List.mem_cons_of_mem _ hm, hp⟩

lemma processItem1_defs (st : PState) (item : JVal) (d : String)
    (hd : d ∈ (stateOf (processItem1 st item)).defs) :
    d ∈ st.defs ∨ ∃ blocks, item = JVal.arr blocks ∧ ∃ pb, pb ∈ blocks ∧ QBlock pb d := by
  unfold processItem1 at hd
  split at hd
  · rcases foldlE_defs_mem processPosBlock QBlock processPosBlock_defs _ st d hd with
      h | ⟨pb, hm, hq⟩
    · exact Or.inl h
    · exact Or.inr ⟨_, rfl, pb, hm, hq⟩
  · exact Or.inl hd

/-- Shape of every definition string appended by the fallback
(synonym-style) pass for one top-level item: the item is a list headed by
its part-of-speech string and a synonym list, and the definition joins the
string values of at most the first five synonyms of that list. -/
def QFallback (item : JVal) (d : String) : Prop :=
  ∃ pos syns rest l,
    item = JVal.arr (JVal.str pos :: JVal.arr syns :: rest) ∧
    strList? (syns.take 5) = some l ∧ l.length ≤ 5 ∧
    d = "(" ++ pos ++ ") " ++ String.intercalate ", " l

lemma processItem2_defs (st : PState) (item : JVal) (d : String)
    (hd : d ∈ (stateOf (processItem2 st item)).defs) :
    d ∈ st.defs ∨ QFallback item d := by
  unfold processItem2 at hd
  split at hd
  · rename_i pos synsV restV
    split at hd
    · rename_i syns
      split at hd
      · exact Or.inl hd
      · rename_i l hl
        rcases List.mem_append.mp hd with h1 | h2
        · exact Or.inl h1
        · refine Or.inr ⟨pos, syns, restV, l, rfl, hl, ?_, by simpa using h2⟩
          have hlen := strList?_length _ _ hl
          have h5 := List.length_take_le 5 syns
          omega
    · exact Or.inl hd
  · exact Or.inl hd

lemma fallback_parse_defs (xs : List JVal) (w : String) (st : PState)
    (hok : foldlE processItem1 { ipa := ipaOf xs, allPos := [], defs := [], exs := [] } xs
      = Except.ok st)
    (hempty : st.defs = [])
    (d : String) (hd : d ∈ (parse_trans_data (some (JVal.arr xs)) w).definitions) :
    ∃ item, item ∈ xs ∧ QFallback item d := by
  cases xs with
  | nil =>
    have h0 : parse_trans_data (some (JVal.arr [])) w = defaultResult w := rfl
    rw [h0] at hd
    exact absurd hd (List.not_mem_nil d)
  | cons x xs2 =>
    have hparse : parse_trans_data (some (JVal.arr (x :: xs2))) w
        = finishResult w (passes (x :: xs2)
            { ipa := ipaOf (x :: xs2), allPos := [], defs := [], exs := [] }) := rfl
    rw [hparse, finishResult_defs] at hd
    have hpasses : passes (x :: xs2)
        { ipa := ipaOf (x :: xs2), allPos := [], defs := [], exs := [] }
        = foldlE processItem2 st (x :: xs2) := by
      unfold passes
      rw [hok]
      show (if st.defs = [] then foldlE processItem2 st (x :: xs2) else Except.ok st) = _
      rw [if_pos hempty]
    rw [hpasses] at hd
    rcases foldlE_defs_mem processItem2 QFallback processItem2_defs (x :: xs2) st d hd with
      h | ⟨item, hm, hq⟩
    · rw [hempty] at h
      exact absurd h (List.not_mem_nil d)
    · exact ⟨item, hm, hq⟩

lemma ipaOf_shape (a0 : JVal) (l1 tail0 rest : List JVal) (h : 3 < l1.length) :
    ipaOf (JVal.arr (a0 :: JVal.arr l1 :: tail0) :: rest)
      = "/" ++ pyStr (l1.getD 3 JVal.null) ++ "/" := by
  show (if 3 < l1.length then "/" ++ pyStr (l1.getD 3 JVal.null) ++ "/" else "") = _
  rw [if_pos h]

/-! ### Claims -/

/-- Claim C1: `parse_trans_data` is total on every input payload (the
embedding returns a `TransResult` for every payload, with the `try`-block
exceptions of the source caught internally — the `word` field always equals
the query word), and for an absent payload (`None`) it returns the entry with
the query word and all other fields empty. -/
theorem parse_never_raises_c1 :
    (∀ (data : Option JVal) (w : String), (parse_trans_data data w).word = w) ∧
    (∀ w : String, parse_trans_data none w =
      { word := w, translation := "", ipa := "", pos := "",
        definitions := [], examples := [] }) := by
  constructor
  · intro data w
    cases data with
    | none => rfl
    | some v =>
      show (if pyTruthy v then parseTruthy v w else defaultResult w).word = w
      split
      · cases v with
        | arr xs => exact finishResult_word _ _
        | str s => exact finishResult_word _ _
        | null => rfl
        | bool b => rfl
        | num n => rfl
      · rfl
  · intro w
    rfl

/-- Claim C2: when the payload's first element is a list whose second element
is a list of length greater than three holding a string at index 3, the
parser's `ipa` field is that string wrapped in slashes. -/
theorem parse_ipa_c2 (a0 : JVal) (l1 tail0 rest : List JVal) (s w : String)
    (hlen : 3 < l1.length) (hs : l1.getD 3 JVal.null = JVal.str s) :
    (parse_trans_data (some (JVal.arr (JVal.arr (a0 :: JVal.arr l1 :: tail0) :: rest))) w).ipa
      = "/" ++ s ++ "/" := by
  show (finishResult w (passes (JVal.arr (a0 :: JVal.arr l1 :: tail0) :: rest)
    { ipa := ipaOf (JVal.arr (a0 :: JVal.arr l1 :: tail0) :: rest),
      allPos := [], defs := [], exs := [] })).ipa = "/" ++ s ++ "/"
  rw [finishResult_ipa, passes_ipa]
  show ipaOf (JVal.arr (a0 :: JVal.arr l1 :: tail0) :: rest) = "/" ++ s ++ "/"
  rw [ipaOf_shape _ _ _ _ hlen, hs]
  rfl

/-- Witness for C2 at the spec's concrete payload. -/
theorem parse_ipa_c2_witness :
    (parse_trans_data (some (JVal.arr [JVal.arr [JVal.null,
        JVal.arr [JVal.null, JVal.null, JVal.null, JVal.str "wɜːrd"]]])) "word").ipa
      = "/wɜːrd/" := by
  have h := parse_ipa_c2 JVal.null [JVal.null, JVal.null, JVal.null, JVal.str "wɜːrd"] [] []
    "wɜːrd" "word" (by decide) rfl
  exact h.trans rfl

/-- Claim C3: the fallback pass runs only when the primary pass produced zero
definitions (a non-empty primary result is returned unchanged by `passes`);
when the fallback does run, every definition the parser returns joins at most
the first five synonyms of its own entry (the shape `QFallback`); and on the
spec's synonym-only payload the parser yields exactly one definition joining
only the first five of the six synonyms. -/
theorem fallback_c3 :
    (∀ (xs : List JVal) (st0 st : PState),
        foldlE processItem1 st0 xs = Except.ok st → st.defs ≠ [] →
        passes xs st0 = Except.ok st) ∧
    (∀ (xs : List JVal) (w : String) (st : PState),
        foldlE processItem1 { ipa := ipaOf xs, allPos := [], defs := [], exs := [] } xs
          = Except.ok st →
        st.defs = [] →
        ∀ d, d ∈ (parse_trans_data (some (JVal.arr xs)) w).definitions →
          ∃ item, item ∈ xs ∧ QFallback item d) ∧
    (∀ w : String,
      (parse_trans_data (some (JVal.arr [JVal.arr [JVal.str "noun",
          JVal.arr [JVal.str "alpha", JVal.str "beta", JVal.str "gamma",
            JVal.str "delta", JVal.str "epsilon", JVal.str "zeta"]]])) w).definitions
        = ["(noun) alpha, beta, gamma, delta, epsilon"]) := by
  refine ⟨?_, fallback_parse_defs, ?_⟩
  · intro xs st0 st hok hne
    unfold passes
    rw [hok]
    show (if st.defs = [] then foldlE processItem2 st xs else Except.ok st) = Except.ok st
    rw [if_neg hne]
  · intro w
    rfl

/-- The spec's synonym-only payload (one part of speech, six synonyms), used
by the witness of C3. -/
def c3Payload : List JVal :=
  [JVal.arr [JVal.str "noun",
    JVal.arr [JVal.str "alpha", JVal.str "beta", JVal.str "gamma",
      JVal.str "delta", JVal.str "epsilon", JVal.str "zeta"]]]

/-- Witness for C3: a payload on which the primary pass produced a definition
is returned by `passes` without entering the fallback pass; and on the spec's
synonym-only payload the fallback definition indeed comes from its item with
at most five joined synonyms. -/
theorem fallback_c3_witness :
    (passes [JVal.arr [JVal.arr [JVal.str "noun", JVal.arr [JVal.arr [JVal.str "a thing"]]]]]
      { ipa := "", allPos := [], defs := [], exs := [] }
      = Except.ok { ipa := "", allPos := ["noun"], defs := ["(noun) a thing"], exs := [] }) ∧
    (∃ item, item ∈ c3Payload ∧
      QFallback item "(noun) alpha, beta, gamma, delta, epsilon") := by
  refine ⟨fallback_c3.1 _ _ _ rfl (by simp), ?_⟩
  have hmem : "(noun) alpha, beta, gamma, delta, epsilon"
      ∈ (parse_trans_data (some (JVal.arr c3Payload)) "w").definitions := by
    have h : (parse_trans_data (some (JVal.arr c3Payload)) "w").definitions
        = ["(noun) alpha, beta, gamma, delta, epsilon"] := rfl
    rw [h]
    exact List.mem_singleton.mpr rfl
  exact fallback_c3.2.1 c3Payload "w"
    { ipa := ipaOf c3Payload, allPos := [], defs := [], exs := [] }
    rfl rfl _ hmem

/-- Claim C4: for an explanation-style payload (one on which the primary pass
succeeds with at least one definition), every definition string the parser
returns is `"(<pos>) <text>"` optionally followed by a synonym suffix joining
at most three synonyms drawn from the sibling synonym groups of the same
part-of-speech block (the shape `QBlock`). -/
theorem defs_shape_c4 (xs : List JVal) (w : String) (st : PState)
    (hok : foldlE processItem1 { ipa := ipaOf xs, allPos := [], defs := [], exs := [] } xs
      = Except.ok st)
    (hne : st.defs ≠ [])
    (d : String) (hd : d ∈ (parse_trans_data (some (JVal.arr xs)) w).definitions) :
    ∃ item, item ∈ xs ∧ ∃ blocks, item = JVal.arr blocks ∧ ∃ pb, pb ∈ blocks ∧ QBlock pb d := by
  have hxs : xs ≠ [] := by
    intro h
    subst h
    cases hok
    exact hne rfl
  have htr : pyTruthy (JVal.arr xs) = true := by
    cases xs with
    | nil => exact absurd rfl hxs
    | cons a l => rfl
  have hparse : parse_trans_data (some (JVal.arr xs)) w
      = finishResult w (passes xs { ipa := ipaOf xs, allPos := [], defs := [], exs := [] }) := by
    show (if pyTruthy (JVal.arr xs) then parseTruthy (JVal.arr xs) w else defaultResult w) = _
    rw [htr, if_pos rfl]
    rfl
  rw [hparse, finishResult_defs] at hd
  have hpasses : passes xs { ipa := ipaOf xs, allPos := [], defs := [], exs := [] }
      = Except.ok st := by
    unfold passes
    rw [hok]
    show (if st.defs = [] then foldlE processItem2 st xs else Except.ok st) = Except.ok st
    rw [if_neg hne]
  rw [hpasses] at hd
  have hd2 : d ∈ (stateOf (foldlE processItem1
      { ipa := ipaOf xs, allPos := [], defs := [], exs := [] } xs)).defs := by
    rw [hok]
    exact hd
  rcases foldlE_defs_mem processItem1
      (fun item d => ∃ blocks, item = JVal.arr blocks ∧ ∃ pb, pb ∈ blocks ∧ QBlock pb d)
      processItem1_defs xs _ d hd2 with h | ⟨item, hm, hp⟩
  · exact absurd h (by simp)
  · exact ⟨item, hm, hp⟩

/-- A concrete explanation-style payload (one part-of-speech block with a
four-string synonym group and one definition entry carrying an example),
used by the witness of C4. -/
def c4Payload : List JVal :=
  [JVal.arr [JVal.arr [JVal.str "noun",
    JVal.arr [JVal.arr [JVal.arr [JVal.str "s1", JVal.str "s2", JVal.str "s3", JVal.str "s4"]],
              JVal.arr [JVal.str "a thing", JVal.null, JVal.str "an example"]]]]]

/-- Witness for C4 on a concrete explanation-style payload with one
definition and one synonym group of four synonyms (the suffix keeps three). -/
theorem defs_shape_c4_witness :
    ∃ item, item ∈ c4Payload ∧ ∃ blocks, item = JVal.arr blocks ∧ ∃ pb, pb ∈ blocks ∧
      QBlock pb "(noun) a thing | Synonyms: s1, s2, s3" := by
  have hmem : "(noun) a thing | Synonyms: s1, s2, s3"
      ∈ (parse_trans_data (some (JVal.arr c4Payload)) "w").definitions := by
    have h : (parse_trans_data (some (JVal.arr c4Payload)) "w").definitions
        = ["(noun) a thing | Synonyms: s1, s2, s3"] := rfl
    rw [h]
    exact List.mem_singleton.mpr rfl
  exact defs_shape_c4 c4Payload "w"
    { ipa := "", allPos := ["noun"], defs := ["(noun) a thing | Synonyms: s1, s2, s3"],
      exs := ["an example"] }
    rfl (by simp) _ hmem

/-- Counterexample to C5 as stated: for the decoded response
`{"result": 5, "error": "oops"}` the error value is non-null (and truthy, so
it is logged), yet `invoke` returns the usable, non-null result `5` — the
call is not treated as having no result. -/
theorem invoke_c5_counterexample :
    pyTruthy (JVal.str "oops") = true ∧
    invoke [("result", JVal.num 5), ("error", JVal.str "oops")] = (JVal.num 5, true) ∧
    JVal.num 5 ≠ JVal.null := by
  refine ⟨rfl, rfl, ?_⟩
  intro h
  exact JVal.noConfusion h

/-- Claim C5 as amended: `invoke` returns `None` when the decoded response
does not have exactly two top-level keys; when the error value is truthy it
is logged, and `invoke` then returns the response's `result` value unchanged
(`None` only when that value is null or the key is missing). -/
theorem invoke_c5_amended :
    (∀ r : List (String × JVal), r.length ≠ 2 → invoke r = (JVal.null, false)) ∧
    (∀ (r : List (String × JVal)) (e : JVal), r.length = 2 →
      lookupJ "error" r = some e → pyTruthy e = true →
      (invoke r).2 = true ∧
      (invoke r).1 = (match lookupJ "result" r with
                      | some v => v
                      | none => JVal.null)) := by
  constructor
  · intro r h
    unfold invoke
    rw [if_pos h]
  · intro r e hlen herr htr
    unfold invoke
    rw [if_neg (by omega), herr]
    rcases hres : lookupJ "result" r with _ | v <;> simp [htr]

/-- Witness for the amended C5 at concrete responses. -/
theorem invoke_c5_witness :
    invoke [] = (JVal.null, false) ∧
    (invoke [("result", JVal.null), ("error", JVal.str "boom")]).2 = true :=
  ⟨invoke_c5_amended.1 [] (by decide),
   (invoke_c5_amended.2 [("result", JVal.null), ("error", JVal.str "boom")]
     (JVal.str "boom") rfl rfl rfl).1⟩

/-- Concrete loop inputs: a fresh word, audio downloaded, and the user
answers `n` to `Add card?`. -/
def declineInputs : IterInputs :=
  { word := "cat", cardExists := false, addAnywayAnswer := "",
    audioCreated := true, addCardAnswer := "n", noteAdded := false }

/-- Concrete loop inputs: a fresh word, audio downloaded, and the card is
submitted successfully. -/
def submitInputs : IterInputs :=
  { word := "cat", cardExists := false, addAnywayAnswer := "",
    audioCreated := true, addCardAnswer := "", noteAdded := true }

/-- The four possible results of one loop iteration. -/
lemma mainIteration_cases (inp : IterInputs) :
    mainIteration inp
      = { outcome := IterOutcome.brk, audioFileCreated := false,
          audioFileRemoved := false } ∨
    mainIteration inp
      = { outcome := IterOutcome.skipDuplicate, audioFileCreated := false,
          audioFileRemoved := false } ∨
    mainIteration inp
      = { outcome := IterOutcome.declined, audioFileCreated := inp.audioCreated,
          audioFileRemoved := false } ∨
    mainIteration inp
      = { outcome := IterOutcome.submitted inp.noteAdded, audioFileCreated := inp.audioCreated,
          audioFileRemoved := inp.audioCreated } := by
  unfold mainIteration
  split
  · exact Or.inl rfl
  · split
    · exact Or.inr (Or.inl rfl)
    · split
      · exact Or.inr (Or.inr (Or.inl rfl))
      · exact Or.inr (Or.inr (Or.inr rfl))

/-- Counterexample to C6 as stated: in an iteration where the audio download
created the temp file and the user then declines to add the card, the
`continue` on line 188 is reached before the cleanup on line 266, so the file
is created but not removed. -/
theorem audio_cleanup_c6_counterexample :
    (mainIteration declineInputs).audioFileCreated = true ∧
    (mainIteration declineInputs).audioFileRemoved = false := by
  constructor <;> decide

/-- Claim C6 as amended: the temporary audio file is removed at the end of
every iteration that reaches note submission — whether the submission
succeeded or failed — but when the user declines to add the card the
iteration is skipped before the cleanup and the file is left behind. -/
theorem audio_cleanup_c6_amended :
    (∀ (inp : IterInputs) (b : Bool),
      (mainIteration inp).outcome = IterOutcome.submitted b →
      (mainIteration inp).audioFileRemoved = (mainIteration inp).audioFileCreated) ∧
    (∀ inp : IterInputs,
      (mainIteration inp).outcome = IterOutcome.declined →
      (mainIteration inp).audioFileRemoved = false) := by
  constructor
  · intro inp b h
    rcases mainIteration_cases inp with hc | hc | hc | hc <;> rw [hc] at h ⊢
    all_goals exact absurd h (by simp)
  · intro inp h
    rcases mainIteration_cases inp with hc | hc | hc | hc <;> rw [hc] at h ⊢
    all_goals exact absurd h (by simp)

/-- Witness for the amended C6: an iteration that reaches submission removes
the created audio file. -/
theorem audio_cleanup_c6_witness :
    (mainIteration submitInputs).audioFileRemoved
      = (mainIteration submitInputs).audioFileCreated :=
  audio_cleanup_c6_amended.1 submitInputs true (by decide)

lemma escapeQuote_quote_preceded :
    ∀ (cs : List Char) (i : Nat), (escapeQuote cs).get? i = some '"' →
      ∃ j, i = j + 1 ∧ (escapeQuote cs).get? j = some '\\' := by
  intro cs
  induction cs with
  | nil =>
    intro i h
    exact absurd h (by simp [escapeQuote])
  | cons c cs ih =>
    intro i h
    by_cases hc : c = '"'
    · subst hc
      have hesc : escapeQuote ('"' :: cs) = '\\' :: '"' :: escapeQuote cs := by
        simp [escapeQuote]
      rw [hesc] at h
      match i with
      | 0 => exact absurd (Option.some.inj h) (by decide)
      | 1 => exact ⟨0, rfl, by rw [hesc]; rfl⟩
      | Nat.succ (Nat.succ k) =>
        rcases ih k h with ⟨j, hj, hget⟩
        exact ⟨j + 2, by omega, by rw [hesc]; simpa using hget⟩
    · have hesc : escapeQuote (c :: cs) = c :: escapeQuote cs := by
        simp [escapeQuote, hc]
      rw [hesc] at h
      match i with
      | 0 => exact absurd (Option.some.inj h) hc
      | Nat.succ k =>
        rcases ih k h with ⟨j, hj, hget⟩
        exact ⟨j + 1, by omega, by rw [hesc]; simpa using hget⟩

lemma escapeQuote_id : ∀ (cs : List Char), '"' ∉ cs → escapeQuote cs = cs := by
  intro cs
  induction cs with
  | nil => intro _; rfl
  | cons c cs ih =>
    intro h
    have hc : c ≠ '"' := fun hcq => h (hcq ▸ List.mem_cons_self _ _)
    have hcs : '"' ∉ cs := fun hm => h (List.mem_cons_of_mem _ hm)
    simp [escapeQuote, hc, ih hcs]

/-- Claim C7: the duplicate-check query is
`deck:"<deck>" "Word:<escaped word>"`, where every double quote of the word
has been escaped (in the escaped word every `"` is immediately preceded by a
backslash, and a word without quotes is embedded unchanged). -/
theorem query_escape_c7 (deck word : String) :
    card_exists_query deck word
      = "deck:\"" ++ deck ++ "\" \"Word:" ++ safe_word word ++ "\"" ∧
    (∀ i : Nat, (escapeQuote word.data).get? i = some '"' →
      ∃ j, i = j + 1 ∧ (escapeQuote word.data).get? j = some '\\') ∧
    ('"' ∉ word.data → safe_word word = word) := by
  refine ⟨rfl, escapeQuote_quote_preceded word.data, fun h => ?_⟩
  show String.mk (escapeQuote word.data) = word
  rw [escapeQuote_id word.data h]

/-- Witness for C7: in the escaped form of `a"b` the quote is preceded by a
backslash, and a quote-free word is embedded unchanged. -/
theorem query_escape_c7_witness :
    (∃ j, 2 = j + 1 ∧ (escapeQuote ("a\"b").data).get? j = some '\\') ∧
    safe_word "ab" = "ab" :=
  ⟨(query_escape_c7 "Deck" "a\"b").2.1 2 rfl,
   (query_escape_c7 "Deck" "ab").2.2 (by decide)⟩

/-- Claim C8: the example string rendered into the note is built from at most
the first four collected examples, regardless of how many the parser
accumulated (appending further examples beyond four leaves it unchanged). -/
theorem render_examples_c8 :
    (∀ exs : List String, renderExamples exs = renderExamples (exs.take 4)) ∧
    (∀ exs extra : List String, 4 ≤ exs.length →
      renderExamples (exs ++ extra) = renderExamples exs) ∧
    (∀ exs : List String, ((exs.take 4).map (fun e => "• " ++ e)).length ≤ 4) := by
  refine ⟨fun exs => ?_, fun exs extra h => ?_, fun exs => ?_⟩
  · unfold renderExamples
    rw [List.take_take]
    norm_num
  · unfold renderExamples
    rw [List.take_append_of_le_length h]
  · simp

/-- Witness for C8: a fifth example does not change the rendered string. -/
theorem render_examples_c8_witness :
    renderExamples (["a", "b", "c", "d"] ++ ["e"]) = renderExamples ["a", "b", "c", "d"] :=
  render_examples_c8.2.1 ["a", "b", "c", "d"] ["e"] (by decide)

lemma lexLt_trans : ∀ (as bs cs : List Char),
    lexLt as bs = true → lexLt bs cs = true → lexLt as cs = true := by
  intro as
  induction as with
  | nil =>
    intro bs cs h1 h2
    cases bs with
    | nil => exact absurd h1 (by simp [lexLt])
    | cons b bs =>
      cases cs with
      | nil => exact absurd h2 (by simp [lexLt])
      | cons c cs => simp [lexLt]
  | cons a as ih =>
    intro bs cs h1 h2
    cases bs with
    | nil => exact absurd h1 (by simp [lexLt])
    | cons b bs =>
      cases cs with
      | nil => exact absurd h2 (by simp [lexLt])
      | cons c cs =>
        simp only [lexLt] at h1 h2 ⊢
        by_cases hab : a = b
        · subst hab
          rw [if_pos rfl] at h1
          by_cases hbc : a = c
          · subst hbc
            rw [if_pos rfl] at h2 ⊢
            exact ih bs cs h1 h2
          · rw [if_neg hbc] at h2 ⊢
            exact h2
        · rw [if_neg hab] at h1
          have hab2 : a < b := of_decide_eq_true h1
          by_cases hbc : b = c
          · subst hbc
            rw [if_neg hab]
            exact h1
          · rw [if_neg hbc] at h2
            have hbc2 : b < c := of_decide_eq_true h2
            have hac : a < c := lt_trans hab2 hbc2
            rw [if_neg (ne_of_lt hac)]
            exact decide_eq_true hac

lemma lexLt_asymm : ∀ (as bs : List Char), lexLt as bs = true → lexLt bs as = false := by
  intro as
  induction as with
  | nil =>
    intro bs h
    cases bs with
    | nil => exact absurd h (by simp [lexLt])
    | cons b bs => simp [lexLt]
  | cons a as ih =>
    intro bs h
    cases bs with
    | nil => exact absurd h (by simp [lexLt])
    | cons b bs =>
      simp only [lexLt] at h ⊢
      by_cases hab : a = b
      · subst hab
        rw [if_pos rfl] at h ⊢
        exact ih bs h
      · rw [if_neg hab] at h
        rw [if_neg (Ne.symm hab)]
        exact decide_eq_false (lt_asymm (of_decide_eq_true h))

lemma lexLt_connex : ∀ (as bs : List Char),
    lexLt as bs = false → lexLt bs as = false → as = bs := by
  intro as
  induction as with
  | nil =>
    intro bs h1 h2
    cases bs with
    | nil => rfl
    | cons b bs => exact absurd h1 (by simp [lexLt])
  | cons a as ih =>
    intro bs h1 h2
    cases bs with
    | nil => exact absurd h2 (by simp [lexLt])
    | cons b bs =>
      simp only [lexLt] at h1 h2
      by_cases hab : a = b
      · subst hab
        rw [if_pos rfl] at h1
        rw [if_pos rfl] at h2
        rw [ih bs h1 h2]
      · rw [if_neg hab] at h1
        rw [if_neg (Ne.symm hab)] at h2
        rcases lt_or_gt_of_ne hab with h | h
        · exact absurd h (of_decide_eq_false h1)
        · exact absurd h (of_decide_eq_false h2)

lemma sortDesc_total : IsTotal String (fun a b => pyLt a b = false) := by
  constructor
  intro a b
  cases h : pyLt a b with
  | false => exact Or.inl rfl
  | true => exact Or.inr (lexLt_asymm _ _ h)

lemma sortDesc_trans : IsTrans String (fun a b => pyLt a b = false) := by
  constructor
  intro a b c h1 h2
  simp only [pyLt] at h1 h2 ⊢
  cases hac : lexLt a.data c.data with
  | false => rfl
  | true =>
    cases hcb : lexLt c.data b.data with
    | true =>
      have h3 := lexLt_trans a.data c.data b.data hac hcb
      rw [h3] at h1
      exact Bool.noConfusion h1
    | false =>
      have heq := lexLt_connex b.data c.data h2 hcb
      rw [← heq] at hac
      rw [hac] at h1
      exact Bool.noConfusion h1

lemma isDigit_toNat (c : Char) (h : c.isDigit = true) :
    48 ≤ c.toNat ∧ c.toNat ≤ 57 := by
  simp only [Char.isDigit, Bool.and_eq_true, decide_eq_true_eq] at h
  exact ⟨UInt32.le_toNat_of_le (by decide) h.1, UInt32.toNat_le_of_le (by decide) h.2⟩

lemma findSome?_head_some {α β : Type} (f : α → Option β) (a : α) (l : List α) (b : β)
    (h : f a = some b) : List.findSome? f (a :: l) = some b := by
  simp [List.findSome?, h]

lemma asciiDigit_decVal (c : Char) (h : c.isDigit = true) :
    pyDecVal? c = some (c.toNat - 48) := by
  obtain ⟨h1, h2⟩ := isDigit_toNat c h
  refine findSome?_head_some _ 48 _ _ ?_
  rw [if_pos ⟨h1, by omega⟩]

lemma decDigits?_ascii : ∀ (cs : List Char), cs.all Char.isDigit = true →
    decDigits? cs = some (cs.map (fun c => c.toNat - 48)) := by
  intro cs
  induction cs with
  | nil =>
    intro h
    rfl
  | cons c cs ih =>
    intro h
    rw [List.all_cons, Bool.and_eq_true] at h
    unfold decDigits?
    rw [asciiDigit_decVal c h.1, ih h.2]
    rfl

/-- The ASCII model agrees with the full classification on its `some`
branch: a non-empty ASCII digit string is `isdigit()`-true and `int()`
evaluates it to the same value. -/
lemma pyToNat?_sound (s : String) (k : Nat) (h : pyToNat? s = some k) :
    pyIsDigit s = true ∧ pyIntVal? s = some k := by
  unfold pyToNat? at h
  split at h
  · rename_i hcond
    obtain ⟨hne, hall⟩ := hcond
    cases h
    constructor
    · unfold pyIsDigit
      have h1 : s.data.isEmpty = false := by
        cases hd : s.data with
        | nil => exact absurd hd hne
        | cons a l => rfl
      rw [h1]
      simp only [Bool.not_false, Bool.true_and]
      rw [List.all_eq_true] at hall ⊢
      intro c hc
      unfold pyIsDigitChar
      rw [asciiDigit_decVal c (hall c hc)]
      rfl
    · unfold pyIntVal?
      rw [decDigits?_ascii s.data hall]
      show some ((List.map (fun c => c.toNat - 48) s.data).foldl (fun n v => n * 10 + v) 0)
        = some (s.data.foldl (fun n c => n * 10 + (c.toNat - 48)) 0)
      rw [List.foldl_map]
  · exact Option.noConfusion h

lemma pyIsDigit_strip_ne (c : String) (hdig : pyIsDigit (pyStrip c) = true) :
    pyStrip c ≠ "" := by
  intro h
  rw [h] at hdig
  exact Bool.noConfusion hdig

lemma select_deckFull_numeric (ds : List String) (c : String) (rest : List String) (k : Nat)
    (hds : ds ≠ []) (hdig : pyIsDigit (pyStrip c) = true)
    (hval : pyIntVal? (pyStrip c) = some k) (h0 : 0 < k) (hle : k ≤ ds.length) :
    select_deckFull (some ds) (c :: rest)
      = SelectOutcome.chosen ((sortDesc ds).getD (k - 1) "Default") := by
  show (if ds = [] then SelectOutcome.chosen "Default"
        else selectLoopFull (sortDesc ds) (c :: rest)) = _
  rw [if_neg hds]
  unfold selectLoopFull
  rw [if_neg (pyIsDigit_strip_ne c hdig), hdig, if_pos rfl, hval]
  show (if 0 < k ∧ k ≤ (sortDesc ds).length
        then SelectOutcome.chosen ((sortDesc ds).getD (k - 1) "Default")
        else selectLoopFull (sortDesc ds) rest) = _
  have hlen : (sortDesc ds).length = ds.length := List.length_insertionSort _ _
  rw [if_pos ⟨h0, by rw [hlen]; exact hle⟩]

lemma select_deck_numeric (ds : List String) (c : String) (rest : List String) (k : Nat)
    (hds : ds ≠ []) (hk : pyToNat? (pyStrip c) = some k) (h0 : 0 < k) (hle : k ≤ ds.length) :
    select_deck (some ds) (c :: rest) = some ((sortDesc ds).getD (k - 1) "Default") := by
  obtain ⟨hdig, hval⟩ := pyToNat?_sound (pyStrip c) k hk
  have hfull := select_deckFull_numeric ds c rest k hds hdig hval h0 hle
  unfold select_deck
  rw [hfull]

/-- Claim C10: `select_deck` sorts the deck names in descending (reverse
lexicographic) order before presenting them — the presented listing
`sortDesc ds` is a permutation of the service's listing sorted descending
with respect to the embedded string comparison — and a numeric choice `k`
indexes into this sorted listing, not into the service order; concretely,
for the service order `["Alpha", "Beta"]` choice `1` returns `"Beta"`. -/
theorem select_deck_sorted_c10 :
    (∀ ds : List String, (sortDesc ds).Perm ds ∧
      List.Sorted (fun a b => pyLt a b = false) (sortDesc ds)) ∧
    (∀ (ds : List String) (c : String) (rest : List String) (k : Nat), ds ≠ [] →
      pyToNat? (pyStrip c) = some k → 0 < k → k ≤ ds.length →
      select_deck (some ds) (c :: rest) = some ((sortDesc ds).getD (k - 1) "Default")) ∧
    select_deck (some ["Alpha", "Beta"]) ["1"] = some "Beta" := by
  refine ⟨fun ds => ⟨List.perm_insertionSort _ _, ?_⟩,
    fun ds c rest k hds hk h0 hle => select_deck_numeric ds c rest k hds hk h0 hle, ?_⟩
  · haveI := sortDesc_total
    haveI := sortDesc_trans
    exact List.sorted_insertionSort _ ds
  · decide

/-- Witness for C10: the numeric-selection conjunct applied to the concrete
reversed listing. -/
theorem select_deck_sorted_c10_witness :
    select_deck (some ["Alpha", "Beta"]) ["2"]
      = some ((sortDesc ["Alpha", "Beta"]).getD 1 "Default") :=
  select_deck_sorted_c10.2.1 ["Alpha", "Beta"] "2" [] 2 (by simp) rfl (by decide) (by decide)

end AnkiCard
